import Mathlib

/-!
Verification of the ClickUp Live Dashboard server (the `part_001` variant,
which the design document describes): cache refresh and merge, detector
selection, fan-out, manual-refresh rate limiter, and backoff scheduler.

Modelling conventions:
* JS numbers that hold millisecond timestamps / durations are modelled as
  `Int` (entry fields) or `Nat` (clock values); `null`/`undefined` fields are
  `Option`.  `Math.max(0, a - b)` on naturals is Lean's truncated subtraction.
* JS truthiness of a number-or-null value: `null` and `0` are falsy.
* JS objects used as string-keyed maps are association lists in insertion
  order; property assignment replaces in place or appends.
* `Array.prototype.sort` is a stable comparison sort (ES2019), so sorting by
  the comparator `(a, b) => entryStart(a) - entryStart(b)` is modelled by
  `List.insertionSort` with the total preorder `entryStart a ≤ entryStart b`,
  which is stable for this comparator.
* Asynchronous upstream calls are oracles passed as arguments; a call that
  rejects is an `Except.error`.
-/

namespace ClickupDash

/-- A member record produced by `fetchMembers` (part_001 lines 78-86). -/
structure Member where
  id : String
  name : String
  email : Option String := none
  avatar : Option String := none
deriving DecidableEq, Repr

/-- The `{ userId, taskId, taskName, start }` record produced by
`fetchActiveForUser` and stored in `workingByUserId`. -/
structure ActiveTimerInfo where
  userId : String
  taskId : Option String := none
  taskName : String := ""
  start : Option Int := none
deriving DecidableEq, Repr

/-- Linked task object of a time entry (`entry.task`). -/
structure TaskRef where
  id : Option String := none
  name : Option String := none
deriving DecidableEq, Repr

/-- The fields of an upstream time entry that the server reads.  Fields are
post-`Number()` coercion: absent/`null` is `none`, numeric values are `Int`. -/
structure Entry where
  duration : Option Int := none
  endA : Option Int := none       -- `e.end` (`end` is a Lean keyword)
  end_time : Option Int := none
  start : Option Int := none
  start_time : Option Int := none
  task : Option TaskRef := none
  task_id : Option String := none
  task_name : Option String := none
  description : Option String := none
deriving DecidableEq, Repr

/-- JS truthiness of a number-or-null value: `null` and `0` are falsy. -/
def jsTruthy : Option Int → Bool
  | none => false
  | some v => v != 0

/-- JS truthiness of a string-or-null value: `null` and `""` are falsy. -/
def jsStrTruthy : Option String → Bool
  | none => false
  | some s => s != ""

/-- JS `a || b` on string-or-null values. -/
def jsStrOr (a b : Option String) : Option String :=
  if jsStrTruthy a then a else b

/-- JS `a || d` where `d` is a (truthy) string literal fallback. -/
def jsStrOrD (a : Option String) (d : String) : String :=
  match a with
  | some s => if s != "" then s else d
  | none => d

/-- `isActiveEntry` (part_001 lines 90-95): duration absent, or a negative
number, or either end field absent. -/
def isActiveEntry (e : Entry) : Bool :=
  e.duration == none ||
    (match e.duration with
     | some d => d < 0
     | none => false) ||
    e.endA == none || e.end_time == none

/-- `entryStart` (part_001 line 96): `Number(e?.start ?? e?.start_time ?? 0)`. -/
def entryStart (e : Entry) : Int :=
  ((e.start).orElse fun _ => e.start_time).getD 0

/-- The comparator order used by `actives.sort((a, b) => entryStart(a) - entryStart(b))`. -/
def startLE (a b : Entry) : Prop :=
  entryStart a ≤ entryStart b

instance : DecidableRel startLE := fun a b =>
  inferInstanceAs (Decidable (entryStart a ≤ entryStart b))

/-- Selection of the active entry (part_001 lines 122-123):
filter the actives, stable-sort ascending by start, `pop()` the last
(`undefined`, i.e. `none`, when empty). -/
def selectActive (entries : List Entry) : Option Entry :=
  ((entries.filter isActiveEntry).insertionSort startLE).getLast?

/-- Fold step keeping the entry with the later start, resolving equal starts
to the later list element. -/
def pickLater (acc : Option Entry) (e : Entry) : Option Entry :=
  match acc with
  | none => some e
  | some b => if entryStart b ≤ entryStart e then some e else some b

/-- The "latest start, ties resolved to the later list position" selection the
design document describes; used to state what `selectActive` computes. -/
def lastStartMax (l : List Entry) : Option Entry :=
  l.foldl pickLater none

/-- Extraction of the `ActiveTimerInfo` from the selected entry
(part_001 lines 141-152).  `start` is `entryStart(active) || null`:
never the current time. -/
def activeToInfo (userId : String) (active : Entry) : ActiveTimerInfo :=
  { userId := userId
    taskId := jsStrOr (active.task.bind TaskRef.id) (jsStrOr active.task_id none)
    taskName :=
      jsStrOrD (active.task.bind TaskRef.name)
        (jsStrOrD active.task_name (jsStrOrD active.description "Working…"))
    start := if entryStart active = 0 then none else some (entryStart active) }

/-- `fetchActiveForUser` (part_001 lines 111-153), with the upstream calls
supplied as oracles: `entries` is the time-entries listing for the 7-day
window, `currentResp` the `/current` response (array or single object;
`none` when the request failed), `detailed` the `fetchEntryDetails` result.
`isMe` is `MY_USER_ID && String(userId) === String(MY_USER_ID)`. -/
def fetchActiveForUser (userId : String) (isMe : Bool) (entries : List Entry)
    (currentResp : Option (List Entry ⊕ Entry)) (detailed : Option Entry) :
    Option ActiveTimerInfo :=
  let active0 := selectActive entries
  let active : Option Entry :=
    match active0 with
    | some a => some a
    | none =>
      if isMe then
        match currentResp with
        | none => none
        | some cur =>
          let curEntry :=
            match cur with
            | Sum.inl arr => arr.find? isActiveEntry
            | Sum.inr e => some e
          match curEntry with
          | some ce => if isActiveEntry ce then some (detailed.getD ce) else none
          | none => none
      else none
  active.map (activeToInfo userId)

/-- `fetchRunningTimersForAll` (part_001 lines 156-177): probe every member,
collect non-null results, swallow per-member errors.  The bounded-concurrency
worker pool processes each member exactly once; the member-order schedule is
modelled. -/
def fetchRunningTimersForAll {ε : Type} (probe : String → Except ε (Option ActiveTimerInfo))
    (members : List Member) : List ActiveTimerInfo :=
  members.foldl
    (fun results m =>
      match probe m.id with
      | Except.ok (some a) => results ++ [a]
      | Except.ok none => results
      | Except.error _ => results)
    []

/-- Association-list lookup, modelling `obj[key]` on a string-keyed object. -/
def lookupA : List (String × ActiveTimerInfo) → String → Option ActiveTimerInfo
  | [], _ => none
  | p :: rest, k => if p.1 = k then some p.2 else lookupA rest k

/-- Association-list update, modelling `obj[key] = v`: replace in place if the
key exists, else append. -/
def setA : List (String × ActiveTimerInfo) → String → ActiveTimerInfo →
    List (String × ActiveTimerInfo)
  | [], k, v => [(k, v)]
  | p :: rest, k, v =>
    if p.1 = k then (p.1, v) :: rest else p :: setA rest k v

/-- One iteration of the merge loop body (part_001 lines 205-207):
`if (!r.start && prev?.start) r.start = prev.start` then store `r`. -/
def mergeOne (prevEntry : Option ActiveTimerInfo) (r : ActiveTimerInfo) : ActiveTimerInfo :=
  let prevStart : Option Int :=
    match prevEntry with
    | some p => p.start
    | none => none
  if !jsTruthy r.start && jsTruthy prevStart then { r with start := prevStart } else r

/-- The merge step (part_001 lines 203-208): start from a spread copy of the
previous `workingByUserId` and fold the loop body over the probe results. -/
def mergeWorking (prev : List (String × ActiveTimerInfo)) (running : List ActiveTimerInfo) :
    List (String × ActiveTimerInfo) :=
  running.foldl (fun acc r => setA acc r.userId (mergeOne (lookupA acc r.userId) r)) prev

/-- The key set of an association list. -/
def keysOf (m : List (String × ActiveTimerInfo)) : Finset String :=
  (m.map Prod.fst).toFinset

/-- The cached snapshot (part_001 lines 34-39). -/
structure Cache where
  lastUpdated : Nat
  members : List Member
  workingUserIds : Finset String
  workingByUserId : List (String × ActiveTimerInfo)

/-- The snapshot built by a successful credentialed refresh
(part_001 lines 200-210). -/
def refreshCacheCred (prev : Cache) (now : Nat) (members : List Member)
    (running : List ActiveTimerInfo) : Cache :=
  { lastUpdated := now
    members := members
    workingUserIds := (running.map ActiveTimerInfo.userId).toFinset
    workingByUserId := mergeWorking prev.workingByUserId running }

/-- `refreshCache` on the credentialed path (part_001 lines 195-210): the
member-list fetch may reject (its error propagates); the fan-out and the merge
cannot (per-member errors are swallowed inside the worker loop).  The
best-effort identity fetch (lines 43-50) catches its own errors and is
omitted; the mock branch needs no credentials and is outside the claims. -/
def refreshCache {ε : Type} (prev : Cache) (now : Nat)
    (membersE : Except ε (List Member))
    (probe : String → Except ε (Option ActiveTimerInfo)) : Except ε Cache :=
  match membersE with
  | Except.error e => Except.error e
  | Except.ok members =>
    Except.ok (refreshCacheCred prev now members (fetchRunningTimersForAll probe members))

/-- Process-wide mutable server state: the snapshot cell, the manual-refresh
call log, and the scheduler's current delay. -/
structure ServerState where
  cache : Cache
  manualCalls : List Nat
  pollDelay : Nat

/-- One hour in milliseconds. -/
def HOUR_MS : Nat := 3600000

/-- `pruneManualCalls` (part_001 lines 54-57): keep `t >= now - 3600000`.
Timestamps are naturals, so the truncated `now - HOUR_MS` agrees with the JS
comparison against a possibly negative bound. -/
def pruneManualCalls (now : Nat) (calls : List Nat) : List Nat :=
  calls.filter fun t => now - HOUR_MS ≤ t

/-- `manualRemaining` (part_001 lines 58-61): `Math.max(0, K - count)` after
pruning, here truncated subtraction. -/
def manualRemaining (maxPerHour now : Nat) (calls : List Nat) : Nat :=
  maxPerHour - (pruneManualCalls now calls).length

/-- `manualResetInMs` (part_001 lines 62-67): after pruning, `0` when empty,
else `Math.max(0, oldest + 3600000 - now)` for the first surviving entry. -/
def manualResetInMs (now : Nat) (calls : List Nat) : Nat :=
  match pruneManualCalls now calls with
  | [] => 0
  | oldest :: _ => oldest + HOUR_MS - now

/-- Next poll delay on a failed scheduled refresh (part_001 lines 220-222):
`Number(retry-after) * 1000 || 2 * pollDelay`, clamped to
`[baseInterval, 300000]`.  `retryAfterSecs` is the parsed header
(`none` when absent or non-numeric). -/
def nextPollDelay (base currentDelay : Nat) (retryAfterSecs : Option Nat) : Nat :=
  let retryMs := retryAfterSecs.getD 0 * 1000
  let retryAfter := if retryMs ≠ 0 then retryMs else 2 * currentDelay
  min (max retryAfter base) 300000

/-- One `scheduledRefresh` tick (part_001 lines 215-227): on success reset the
delay to the base interval and install the new snapshot; on failure keep the
snapshot and back off. -/
def scheduledRefreshStep {ε : Type} (base : Nat) (st : ServerState) (now : Nat)
    (membersE : Except ε (List Member))
    (probe : String → Except ε (Option ActiveTimerInfo))
    (retryAfterSecs : Option Nat) : ServerState :=
  match refreshCache st.cache now membersE probe with
  | Except.ok c => { st with cache := c, pollDelay := base }
  | Except.error _ =>
    { st with pollDelay := nextPollDelay base st.pollDelay retryAfterSecs }

/-- The delay after `n` consecutive failed scheduled refreshes with no
retry-after header, starting from the base interval. -/
def failDelays (base : Nat) : Nat → Nat
  | 0 => base
  | n + 1 => nextPollDelay base (failDelays base n) none

/-- Modelled from the spec: the next-delay formula the design document states
for a failed refresh, `max(retryAfterHeaderMs, 2 × currentDelay)` clamped to
`[baseInterval, 300000]`; written only to compare against `nextPollDelay`. -/
def specNextDelay (base currentDelay : Nat) (retryAfterSecs : Option Nat) : Nat :=
  min (max (max (retryAfterSecs.getD 0 * 1000) (2 * currentDelay)) base) 300000

/-- Response of the manual-refresh endpoint. -/
inductive ManualResponse where
  | rateLimited (remaining resetInMs maxPerHour : Nat)
  | accepted (lastUpdated remaining resetInMs maxPerHour : Nat)
  | serverError
deriving DecidableEq, Repr

/-- The `POST /api/refresh` handler (part_001 lines 247-271).  The entry call
to `manualRemaining()` prunes the log in place; a timestamp is pushed only
after `refreshCache()` resolved. -/
def handleManualRefresh {ε : Type} (maxPerHour : Nat) (st : ServerState) (now : Nat)
    (membersE : Except ε (List Member))
    (probe : String → Except ε (Option ActiveTimerInfo)) :
    ServerState × ManualResponse :=
  if manualRemaining maxPerHour now st.manualCalls = 0 then
    ({ st with manualCalls := pruneManualCalls now st.manualCalls },
      ManualResponse.rateLimited 0 (manualResetInMs now st.manualCalls) maxPerHour)
  else
    match refreshCache st.cache now membersE probe with
    | Except.ok c =>
      let calls' := pruneManualCalls now st.manualCalls ++ [now]
      ({ st with cache := c, manualCalls := calls' },
        ManualResponse.accepted c.lastUpdated (manualRemaining maxPerHour now calls')
          (manualResetInMs now calls') maxPerHour)
    | Except.error _ =>
      ({ st with manualCalls := pruneManualCalls now st.manualCalls },
        ManualResponse.serverError)

/-! ### Concrete fixtures used by counterexamples and witnesses -/

/-- An empty snapshot, as at process start (part_001 lines 34-39). -/
def emptyCache : Cache :=
  { lastUpdated := 0, members := [], workingUserIds := ∅, workingByUserId := [] }

/-- A member with id "9". -/
def memberNine : Member := { id := "9", name := "Nine" }

/-- A cached active-timer entry for user "9". -/
def infoNine : ActiveTimerInfo := { userId := "9", taskName := "Old task", start := some 5 }

/-- A snapshot whose working map contains user "9". -/
def prevCacheNine : Cache :=
  { lastUpdated := 0, members := [memberNine], workingUserIds := {"9"},
    workingByUserId := [("9", infoNine)] }

/-- A probe oracle that finds no running timer for anyone. -/
def probeNone : String → Except Unit (Option ActiveTimerInfo) := fun _ => Except.ok none

/-- A probe result for user "7" whose start the upstream omitted. -/
def rSeven : ActiveTimerInfo := { userId := "7", taskName := "New desc", start := none }

/-- The previously cached entry for user "7", with a known start. -/
def pSeven : ActiveTimerInfo := { userId := "7", taskName := "Old desc", start := some 99 }

/-- Members "1" and "2" for the fan-out witness. -/
def memberOne : Member := { id := "1", name := "One" }

/-- Second member for the fan-out witness. -/
def memberTwo : Member := { id := "2", name := "Two" }

/-- The probe result for member "2". -/
def infoTwo : ActiveTimerInfo := { userId := "2", taskName := "T" }

/-- A probe oracle under which member "1" (and everyone but "2") throws. -/
def probeOneFails : String → Except Unit (Option ActiveTimerInfo) :=
  fun id => if id = "2" then Except.ok (some infoTwo) else Except.error ()

/-- Two active entries with equal starts, to exercise the tie-break. -/
def entryA : Entry := { start := some 5 }

/-- Second active entry with the same start as `entryA`. -/
def entryB : Entry := { start := some 5, description := some "b" }

/-- A server state with an empty manual-call log and base delay. -/
def stBase : ServerState := { cache := emptyCache, manualCalls := [], pollDelay := 30000 }

/-- A server state whose scheduler delay has already been doubled to 60 s. -/
def stBackedOff : ServerState := { cache := emptyCache, manualCalls := [], pollDelay := 60000 }

/-! ### Association list and merge lemmas -/

/-- Looking up the key just stored yields the stored value. -/
theorem lookupA_setA_self (m : List (String × ActiveTimerInfo)) (k : String)
    (v : ActiveTimerInfo) : lookupA (setA m k v) k = some v := by
  induction m with
  | nil => simp [setA, lookupA]
  | cons p rest ih =>
    by_cases h : p.1 = k
    · simp [setA, lookupA, h]
    · simpa [setA, lookupA, h] using ih

/-- Storing under a different key leaves a lookup unchanged. -/
theorem lookupA_setA_ne (m : List (String × ActiveTimerInfo)) {k k' : String}
    (v : ActiveTimerInfo) (h : k' ≠ k) : lookupA (setA m k v) k' = lookupA m k' := by
  induction m with
  | nil => simp [setA, lookupA, Ne.symm h]
  | cons p rest ih =>
    by_cases hp : p.1 = k
    · have hp' : ¬ p.1 = k' := fun hh => h (hh.symm.trans hp)
      simp [setA, lookupA, hp, hp', Ne.symm h]
    · by_cases hp' : p.1 = k'
      · simp [setA, lookupA, hp, hp', h]
      · simpa [setA, lookupA, hp, hp'] using ih

/-- Keys not written by the merge loop keep their previous binding. -/
theorem lookupA_mergeWorking_of_not_mem (running : List ActiveTimerInfo)
    {k : String} (h : k ∉ running.map ActiveTimerInfo.userId) :
    ∀ m, lookupA (mergeWorking m running) k = lookupA m k := by
  induction running with
  | nil => intro m; rfl
  | cons a rest ih =>
    intro m
    simp only [List.map_cons, List.mem_cons, not_or] at h
    have step : mergeWorking m (a :: rest) =
        mergeWorking (setA m a.userId (mergeOne (lookupA m a.userId) a)) rest := rfl
    rw [step, ih h.2, lookupA_setA_ne _ _ h.1]

/-- For pairwise-distinct user ids, the merged map binds each probe result's
user id to the loop body's output computed against the previous map. -/
theorem lookupA_mergeWorking (running : List ActiveTimerInfo)
    (hnd : (running.map ActiveTimerInfo.userId).Nodup)
    {r : ActiveTimerInfo} (hr : r ∈ running) :
    ∀ m, lookupA (mergeWorking m running) r.userId =
      some (mergeOne (lookupA m r.userId) r) := by
  induction running with
  | nil => cases hr
  | cons a rest ih =>
    intro m
    simp only [List.map_cons, List.nodup_cons] at hnd
    have step : mergeWorking m (a :: rest) =
        mergeWorking (setA m a.userId (mergeOne (lookupA m a.userId) a)) rest := rfl
    rcases List.mem_cons.mp hr with rfl | hmem
    · rw [step, lookupA_mergeWorking_of_not_mem rest hnd.1, lookupA_setA_self]
    · have hne : r.userId ≠ a.userId := by
        intro he
        exact hnd.1 (he ▸ List.mem_map_of_mem ActiveTimerInfo.userId hmem)
      rw [step, ih hnd.2 hmem, lookupA_setA_ne _ _ hne]

/-- Key membership after a single store. -/
theorem mem_keys_setA (m : List (String × ActiveTimerInfo)) (k : String)
    (v : ActiveTimerInfo) {x : String} :
    x ∈ (setA m k v).map Prod.fst ↔ x = k ∨ x ∈ m.map Prod.fst := by
  induction m with
  | nil => simp [setA]
  | cons p rest ih =>
    by_cases hp : p.1 = k
    · simp [setA, hp]
    · simp only [setA, if_neg hp, List.map_cons, List.mem_cons, ih]
      tauto

/-- Key membership in the merged map: previous keys plus probed user ids. -/
theorem mem_keys_mergeWorking (running : List ActiveTimerInfo) {x : String} :
    ∀ m, x ∈ (mergeWorking m running).map Prod.fst ↔
      x ∈ m.map Prod.fst ∨ x ∈ running.map ActiveTimerInfo.userId := by
  induction running with
  | nil => intro m; simp [mergeWorking]
  | cons a rest ih =>
    intro m
    have step : mergeWorking m (a :: rest) =
        mergeWorking (setA m a.userId (mergeOne (lookupA m a.userId) a)) rest := rfl
    rw [step, ih, mem_keys_setA]
    simp only [List.map_cons, List.mem_cons]
    tauto

/-- Claim C1: in the merge step, each probe result `r` (for a pairwise-distinct
batch of user ids) ends up stored under its user id with its own `userId`,
`taskId` and `taskName`; its `start` is `r.start` whenever that is truthy, and
is carried over from the previous snapshot's entry whenever `r.start` is falsy
and the previous entry's start is truthy. -/
theorem c1_merge_start_preservation
    (prev : List (String × ActiveTimerInfo)) (running : List ActiveTimerInfo)
    (hnd : (running.map ActiveTimerInfo.userId).Nodup)
    (r : ActiveTimerInfo) (hr : r ∈ running) :
    lookupA (mergeWorking prev running) r.userId =
      some (mergeOne (lookupA prev r.userId) r) ∧
    (mergeOne (lookupA prev r.userId) r).userId = r.userId ∧
    (mergeOne (lookupA prev r.userId) r).taskId = r.taskId ∧
    (mergeOne (lookupA prev r.userId) r).taskName = r.taskName ∧
    (jsTruthy r.start = true → (mergeOne (lookupA prev r.userId) r).start = r.start) ∧
    (jsTruthy r.start = false →
      ∀ p, lookupA prev r.userId = some p → jsTruthy p.start = true →
        (mergeOne (lookupA prev r.userId) r).start = p.start) := by
  refine ⟨lookupA_mergeWorking running hnd hr prev, ?_, ?_, ?_, ?_, ?_⟩
  · cases h : lookupA prev r.userId <;> simp [mergeOne, h] <;> split <;> rfl
  · cases h : lookupA prev r.userId <;> simp [mergeOne, h] <;> split <;> rfl
  · cases h : lookupA prev r.userId <;> simp [mergeOne, h] <;> split <;> rfl
  · intro ht
    cases h : lookupA prev r.userId <;> simp [mergeOne, h, ht]
  · intro hf p hp hps
    simp [mergeOne, hp, hf, hps]

/-- Witness for C1: user "7"'s fresh result lacks a start, the previous
snapshot has `start = 99`, and the merged map reports `start = 99` while
keeping the fresh result's task name. -/
theorem c1_witness :
    lookupA (mergeWorking [("7", pSeven)] [rSeven]) "7" =
      some (mergeOne (lookupA [("7", pSeven)] "7") rSeven) ∧
    (mergeOne (lookupA [("7", pSeven)] "7") rSeven).start = some 99 ∧
    (mergeOne (lookupA [("7", pSeven)] "7") rSeven).taskName = "New desc" := by
  refine ⟨(c1_merge_start_preservation [("7", pSeven)] [rSeven] (by decide) rSeven
    (List.mem_singleton.mpr rfl)).1, ?_, ?_⟩
  · exact (c1_merge_start_preservation [("7", pSeven)] [rSeven] (by decide) rSeven
      (List.mem_singleton.mpr rfl)).2.2.2.2.2 (by decide) pSeven (by decide) (by decide)
  · exact (c1_merge_start_preservation [("7", pSeven)] [rSeven] (by decide) rSeven
      (List.mem_singleton.mpr rfl)).2.2.2.1

/-- Counterexample to claim C2 as stated: a successful credentialed refresh in
which member "9" gets no probe result, yet "9" keeps its entry in the merged
`workingByUserId` while being absent from `workingUserIds` — the map is not
pruned to currently-active users. -/
theorem c2_counterexample :
    lookupA (refreshCacheCred prevCacheNine 100 [memberNine]
        (fetchRunningTimersForAll probeNone [memberNine])).workingByUserId "9" =
      some infoNine ∧
    "9" ∉ (refreshCacheCred prevCacheNine 100 [memberNine]
        (fetchRunningTimersForAll probeNone [memberNine])).workingUserIds := by
  constructor <;> decide

/-- Claim C2 (amended): after a successful credentialed refresh,
`workingUserIds` is exactly the set of user ids with a probe result and is a
subset of the keys of the merged `workingByUserId`; those keys are the union
of the previous map's keys and the probed user ids, so entries of users with
no probe result are retained from the previous snapshot rather than dropped. -/
theorem c2_amended_working_sets (prev : Cache) (now : Nat) (members : List Member)
    (running : List ActiveTimerInfo) :
    (refreshCacheCred prev now members running).workingUserIds =
      (running.map ActiveTimerInfo.userId).toFinset ∧
    keysOf (refreshCacheCred prev now members running).workingByUserId =
      keysOf prev.workingByUserId ∪ (running.map ActiveTimerInfo.userId).toFinset ∧
    (refreshCacheCred prev now members running).workingUserIds ⊆
      keysOf (refreshCacheCred prev now members running).workingByUserId := by
  refine ⟨rfl, ?_, ?_⟩
  · ext x
    simp only [refreshCacheCred, keysOf, List.mem_toFinset, Finset.mem_union]
    exact mem_keys_mergeWorking running prev.workingByUserId
  · intro x hx
    simp only [refreshCacheCred, List.mem_toFinset] at hx
    simp only [refreshCacheCred, keysOf, List.mem_toFinset]
    exact (mem_keys_mergeWorking running prev.workingByUserId).mpr (Or.inr hx)

/-! ### Rate limiter lemmas and claims C8, C9 -/

/-- Entries surviving the prune are original entries inside the window. -/
theorem mem_prune {now : Nat} {calls : List Nat} {t : Nat}
    (h : t ∈ pruneManualCalls now calls) : t ∈ calls ∧ now - HOUR_MS ≤ t := by
  simpa [pruneManualCalls, List.mem_filter] using h

/-- Claim C8: after pruning, `manualRemaining` plus the number of surviving
call timestamps equals `maxPerHour` (whenever the window count is within the
quota, which the handler preserves), and `manualRemaining` is the truncated
difference `maxPerHour - count` after pruning to `now - 3600000`. -/
theorem c8_manual_remaining_accounting (K now : Nat) (calls : List Nat)
    (h : (pruneManualCalls now calls).length ≤ K) :
    manualRemaining K now calls + (pruneManualCalls now calls).length = K ∧
    manualRemaining K now calls = K - (pruneManualCalls now calls).length ∧
    (∀ {ε : Type} (st : ServerState) (now' : Nat) (mE : Except ε (List Member))
        (probe : String → Except ε (Option ActiveTimerInfo)),
      (pruneManualCalls now' st.manualCalls).length ≤ K →
      ((handleManualRefresh K st now' mE probe).1.manualCalls).length ≤ K) := by
  refine ⟨Nat.sub_add_cancel h, rfl, ?_⟩
  intro ε st now' mE probe hK
  unfold handleManualRefresh
  by_cases h0 : manualRemaining K now' st.manualCalls = 0
  · simpa [h0] using hK
  · rw [if_neg h0]
    cases hrc : refreshCache st.cache now' mE probe with
    | ok c =>
      have hlt : (pruneManualCalls now' st.manualCalls).length < K := by
        rcases Nat.lt_or_ge (pruneManualCalls now' st.manualCalls).length K with hl | hg
        · exact hl
        · exact absurd (Nat.sub_eq_zero_of_le hg) h0
      simpa using hlt
    | error e => simpa using hK

/-- Witness for C8 at a concrete input. -/
theorem c8_witness :
    manualRemaining 20 0 [] + (pruneManualCalls 0 []).length = 20 :=
  (c8_manual_remaining_accounting 20 0 [] (by decide)).1

/-- Counterexample to claim C9 as stated: at `now = 3600000` with one call at
timestamp `0`, the entry survives the prune (the log is non-empty) yet
`manualResetInMs` returns `0`. -/
theorem c9_counterexample :
    manualResetInMs 3600000 [0] = 0 ∧ pruneManualCalls 3600000 [0] = [0] := by
  constructor <;> decide

/-- Claim C9 (amended): `manualResetInMs` returns `0` iff the post-prune log
is empty or its oldest surviving entry sits exactly at the window boundary
(`oldest + 3600000 = now`); on a non-empty post-prune log it returns the
(truncated) time until the oldest surviving entry exits the window. -/
theorem c9_reset_iff (now : Nat) (calls : List Nat) :
    (manualResetInMs now calls = 0 ↔
      pruneManualCalls now calls = [] ∨
        ∃ t rest, pruneManualCalls now calls = t :: rest ∧ t + HOUR_MS = now) ∧
    (∀ t rest, pruneManualCalls now calls = t :: rest →
      manualResetInMs now calls = t + HOUR_MS - now) := by
  constructor
  · cases hp : pruneManualCalls now calls with
    | nil => simp [manualResetInMs, hp]
    | cons t rest =>
      have ht : now - HOUR_MS ≤ t := (mem_prune (hp ▸ List.mem_cons_self t rest)).2
      have hle : now ≤ t + HOUR_MS := Nat.sub_le_iff_le_add.mp ht
      constructor
      · intro h0
        right
        have hz : t + HOUR_MS - now = 0 := by simpa [manualResetInMs, hp] using h0
        exact ⟨t, rest, rfl, Nat.le_antisymm (Nat.le_of_sub_eq_zero hz) hle⟩
      · rintro (hnil | ⟨t', rest', heq, hnow⟩)
        · exact absurd hnil (by simp)
        · obtain ⟨rfl, rfl⟩ : t' = t ∧ rest' = rest := by
            have := heq.symm.trans rfl
            exact ⟨(List.cons.injEq .. ▸ heq).1.symm ▸ rfl, (List.cons.injEq .. ▸ heq).2.symm ▸ rfl⟩
          simp [manualResetInMs, hp, hnow]
  · intro t rest hp
    simp [manualResetInMs, hp]

/-- Witness for C9 (amended) at a concrete input: one surviving call at
timestamp `2` observed at `now = 3600001`. -/
theorem c9_witness :
    manualResetInMs 3600001 [2] = 2 + HOUR_MS - 3600001 :=
  (c9_reset_iff 3600001 [2]).2 2 [] (by decide)

/-! ### Scheduler claims C3, C4 -/

/-- Claim C3: when a refresh step after the identity fetch rejects (the
member-list fetch is the only such step that can reject — per-member probe
errors are swallowed inside the worker loop and the merge is pure),
`refreshCache` propagates the error, and neither the scheduled tick nor the
manual handler installs a new snapshot: all four fields of the stored
snapshot are unchanged. -/
theorem c3_refresh_failure_atomic {ε : Type} (st : ServerState)
    (now base maxPerHour : Nat) (e : ε)
    (probe : String → Except ε (Option ActiveTimerInfo)) (hdr : Option Nat) :
    refreshCache st.cache now (Except.error e) probe = Except.error e ∧
    (scheduledRefreshStep base st now (Except.error e) probe hdr).cache = st.cache ∧
    (handleManualRefresh maxPerHour st now (Except.error e) probe).1.cache = st.cache ∧
    (scheduledRefreshStep base st now (Except.error e) probe hdr).cache.lastUpdated =
      st.cache.lastUpdated ∧
    (scheduledRefreshStep base st now (Except.error e) probe hdr).cache.members =
      st.cache.members ∧
    (scheduledRefreshStep base st now (Except.error e) probe hdr).cache.workingUserIds =
      st.cache.workingUserIds ∧
    (scheduledRefreshStep base st now (Except.error e) probe hdr).cache.workingByUserId =
      st.cache.workingByUserId := by
  refine ⟨rfl, rfl, ?_, rfl, rfl, rfl, rfl⟩
  unfold handleManualRefresh
  by_cases h0 : manualRemaining maxPerHour now st.manualCalls = 0
  · simp [h0]
  · simp [h0, refreshCache]

/-- Counterexample to claim C4 as stated: base interval 30000 ms, current
delay 60000 ms, upstream retry-after header of 31 s.  The code takes the
header value alone (31000 ms, clamped), not the maximum with the doubled
delay (120000 ms) that the claim's formula demands. -/
theorem c4_counterexample :
    (scheduledRefreshStep 30000 stBackedOff 0 (Except.error ()) probeNone
        (some 31)).pollDelay = 31000 ∧
    specNextDelay 30000 60000 (some 31) = 120000 ∧
    (scheduledRefreshStep 30000 stBackedOff 0 (Except.error ()) probeNone
        (some 31)).pollDelay ≠ specNextDelay 30000 60000 (some 31) := by
  refine ⟨rfl, rfl, ?_⟩
  decide

/-- Claim C4 (amended): on a failed scheduled refresh the next delay is the
retry-after header in millis when that is present and non-zero, else twice the
current delay, clamped to `[baseInterval, 300000]` (the header, when present,
replaces rather than maxes with the doubled delay); consequently after `N`
consecutive failures with no header the delay is `min(base * 2^N, 300000)`
(for `base ≤ 300000`), and a successful refresh resets the delay to `base`. -/
theorem c4_backoff (base : Nat) :
    (∀ {ε : Type} (st : ServerState) (now : Nat) (e : ε)
        (probe : String → Except ε (Option ActiveTimerInfo)) (hdr : Option Nat),
      (scheduledRefreshStep base st now (Except.error e) probe hdr).pollDelay =
        min (max (if hdr.getD 0 * 1000 ≠ 0 then hdr.getD 0 * 1000
                  else 2 * st.pollDelay) base) 300000) ∧
    (∀ {ε : Type} (st : ServerState) (now : Nat) (members : List Member)
        (probe : String → Except ε (Option ActiveTimerInfo)) (hdr : Option Nat),
      (scheduledRefreshStep base st now (Except.ok members) probe hdr).pollDelay = base) ∧
    (∀ (n : Nat) {ε : Type} (st : ServerState) (now : Nat) (e : ε)
        (probe : String → Except ε (Option ActiveTimerInfo)),
      st.pollDelay = failDelays base n →
      (scheduledRefreshStep base st now (Except.error e) probe none).pollDelay =
        failDelays base (n + 1)) ∧
    (base ≤ 300000 → ∀ n, failDelays base n = min (base * 2 ^ n) 300000) := by
  refine ⟨?_, ?_, ?_, ?_⟩
  · intro ε st now e probe hdr
    rfl
  · intro ε st now members probe hdr
    rfl
  · intro n ε st now e probe h
    simp [scheduledRefreshStep, failDelays, refreshCache, h]
  · intro hb n
    induction n with
    | zero =>
      simp [failDelays, Nat.min_eq_left hb]
    | succ n ih =>
      have hbase : base ≤ min (base * 2 ^ n) 300000 :=
        le_min (Nat.le_mul_of_pos_right base (Nat.pos_pow_of_pos n (by norm_num))) hb
      have hdouble : min (base * 2 ^ n) 300000 ≤ 2 * min (base * 2 ^ n) 300000 :=
        Nat.le_mul_of_pos_left _ (by norm_num)
      calc failDelays base (n + 1)
          = min (max (2 * failDelays base n) base) 300000 := rfl
        _ = min (max (2 * min (base * 2 ^ n) 300000) base) 300000 := by rw [ih]
        _ = min (2 * min (base * 2 ^ n) 300000) 300000 := by
            rw [max_eq_left (le_trans hbase hdouble)]
        _ = min (min (2 * (base * 2 ^ n)) (2 * 300000)) 300000 := by
            rw [Nat.mul_min_mul_left]
        _ = min (2 * (base * 2 ^ n)) (min 600000 300000) := by
            rw [min_assoc]
        _ = min (base * 2 ^ (n + 1)) 300000 := by
            rw [show min 600000 300000 = 300000 from rfl, pow_succ]
            ring_nf

/-- Witness for C4 (amended) at a concrete base interval: the documented
doubling sequence 30000, 60000, 120000, 240000, 300000 capped at 5 minutes. -/
theorem c4_witness :
    failDelays 30000 0 = 30000 ∧ failDelays 30000 1 = 60000 ∧
    failDelays 30000 2 = 120000 ∧ failDelays 30000 3 = 240000 ∧
    failDelays 30000 4 = 300000 ∧ failDelays 30000 5 = 300000 := by
  have h := (c4_backoff 30000).2.2.2 (by norm_num)
  exact ⟨by simpa using h 0, by simpa using h 1, by simpa using h 2,
    by simpa using h 3, by simpa using h 4, by simpa using h 5⟩

/-! ### Manual endpoint claim C5 and fan-out claim C10 -/

/-- Claim C5: a POST to the manual-refresh endpoint while the quota is
exhausted answers 429 `rate_limited` with `remaining = 0`, the current
`resetInMs` and `maxPerHour`, leaves the snapshot untouched and only prunes
(never extends) the call log; moreover, in any request whatsoever, a
timestamp is appended to the log exactly when the request was accepted and
the refresh resolved. -/
theorem c5_manual_reject {ε : Type} (K : Nat) (st : ServerState) (now : Nat)
    (mE : Except ε (List Member))
    (probe : String → Except ε (Option ActiveTimerInfo))
    (h : manualRemaining K now st.manualCalls = 0) :
    handleManualRefresh K st now mE probe =
      ({ st with manualCalls := pruneManualCalls now st.manualCalls },
        ManualResponse.rateLimited 0 (manualResetInMs now st.manualCalls) K) ∧
    (pruneManualCalls now st.manualCalls).Sublist st.manualCalls ∧
    (∀ {ε' : Type} (st' : ServerState) (now' : Nat) (mE' : Except ε' (List Member))
        (probe' : String → Except ε' (Option ActiveTimerInfo)),
      (handleManualRefresh K st' now' mE' probe').1.manualCalls ≠
        pruneManualCalls now' st'.manualCalls →
      manualRemaining K now' st'.manualCalls ≠ 0 ∧
      ∃ c, refreshCache st'.cache now' mE' probe' = Except.ok c ∧
        (handleManualRefresh K st' now' mE' probe').1.manualCalls =
          pruneManualCalls now' st'.manualCalls ++ [now']) := by
  refine ⟨by simp [handleManualRefresh, h], List.filter_sublist _, ?_⟩
  intro ε' st' now' mE' probe' hne
  by_cases h0 : manualRemaining K now' st'.manualCalls = 0
  · exact absurd (by simp [handleManualRefresh, h0]) hne
  · refine ⟨h0, ?_⟩
    cases hrc : refreshCache st'.cache now' mE' probe' with
    | ok c => exact ⟨c, rfl, by simp [handleManualRefresh, h0, hrc]⟩
    | error e => exact absurd (by simp [handleManualRefresh, h0, hrc]) hne

/-- Witness for C5: with a quota of `0`, any request is rejected with the 429
payload and the log stays empty. -/
theorem c5_witness :
    handleManualRefresh 0 stBase 0 (Except.ok ([] : List Member)) probeNone =
      ({ stBase with manualCalls := pruneManualCalls 0 stBase.manualCalls },
        ManualResponse.rateLimited 0 (manualResetInMs 0 stBase.manualCalls) 0) :=
  (c5_manual_reject 0 stBase 0 (Except.ok []) probeNone (by decide)).1

/-- The fan-out equals the in-order collection of the successful non-null
probe results. -/
theorem fetchRunningTimersForAll_eq {ε : Type}
    (probe : String → Except ε (Option ActiveTimerInfo)) (members : List Member) :
    fetchRunningTimersForAll probe members =
      members.filterMap fun mb =>
        match probe mb.id with
        | Except.ok (some a) => some a
        | Except.ok none => none
        | Except.error _ => none := by
  have aux : ∀ (ms : List Member) (acc : List ActiveTimerInfo),
      ms.foldl
        (fun results m =>
          match probe m.id with
          | Except.ok (some a) => results ++ [a]
          | Except.ok none => results
          | Except.error _ => results)
        acc =
      acc ++ ms.filterMap fun mb =>
        match probe mb.id with
        | Except.ok (some a) => some a
        | Except.ok none => none
        | Except.error _ => none := by
    intro ms
    induction ms with
    | nil => intro acc; simp
    | cons m rest ih =>
      intro acc
      cases hp : probe m.id with
      | ok o =>
        cases o with
        | some a => simp [List.foldl_cons, List.filterMap_cons, hp, ih]
        | none => simp [List.foldl_cons, List.filterMap_cons, hp, ih]
      | error e => simp [List.foldl_cons, List.filterMap_cons, hp, ih]
  simpa using aux members []

/-- Claim C10: if a member's probe resolves with a result, that result is in
the fan-out output, whatever the other members' probes do (any of them may
throw); the output is exactly the successful non-null results in order. -/
theorem c10_fanout_fault_isolation {ε : Type}
    (probe : String → Except ε (Option ActiveTimerInfo)) (members : List Member)
    (m : Member) (hm : m ∈ members) (a : ActiveTimerInfo)
    (ha : probe m.id = Except.ok (some a)) :
    a ∈ fetchRunningTimersForAll probe members ∧
    fetchRunningTimersForAll probe members =
      members.filterMap fun mb =>
        match probe mb.id with
        | Except.ok (some x) => some x
        | Except.ok none => none
        | Except.error _ => none := by
  refine ⟨?_, fetchRunningTimersForAll_eq probe members⟩
  rw [fetchRunningTimersForAll_eq]
  exact List.mem_filterMap.mpr ⟨m, hm, by simp [ha]⟩

/-- Witness for C10: member "1"'s probe throws, yet member "2"'s result is in
the batch output. -/
theorem c10_witness :
    infoTwo ∈ fetchRunningTimersForAll probeOneFails [memberOne, memberTwo] :=
  (c10_fanout_fault_isolation probeOneFails [memberOne, memberTwo] memberTwo
    (by decide) infoTwo rfl).1

/-! ### Detector selection lemmas and claims C6, C7 -/

/-- Last element after an ordered insert: the inserted element when it is
strictly above everything present, else the previous last element. -/
theorem getLast?_orderedInsert (a : Entry) :
    ∀ s : List Entry, (s.orderedInsert startLE a).getLast? =
      if ∀ b ∈ s, entryStart b < entryStart a then some a else s.getLast? := by
  intro s
  induction s with
  | nil => simp [List.orderedInsert]
  | cons b t ih =>
    by_cases hab : startLE a b
    · have hnb : ¬ entryStart b < entryStart a := not_lt.mpr hab
      rw [List.orderedInsert, if_pos hab, List.getLast?_cons_cons,
        if_neg fun hall => hnb (hall b (List.mem_cons_self b t))]
    · have hb : entryStart b < entryStart a := not_le.mp hab
      rw [List.orderedInsert, if_neg hab]
      have hne : t.orderedInsert startLE a ≠ [] := by
        intro hnil
        simpa [hnil] using List.orderedInsert_length startLE t a
      cases hoi : t.orderedInsert startLE a with
      | nil => exact absurd hoi hne
      | cons c cs =>
        rw [List.getLast?_cons_cons, ← hoi, ih]
        by_cases hct : ∀ x ∈ t, entryStart x < entryStart a
        · rw [if_pos hct, if_pos (show ∀ x ∈ b :: t, entryStart x < entryStart a by
            intro x hx
            rcases List.mem_cons.mp hx with rfl | hxt
            · exact hb
            · exact hct x hxt)]
        · rw [if_neg hct,
            if_neg fun hall => hct fun x hx => hall x (List.mem_cons_of_mem b hx)]
          cases t with
          | nil => exact absurd (by simp) hct
          | cons c' t' => rw [List.getLast?_cons_cons]

/-- Folding `pickLater` from a seeded accumulator. -/
theorem foldl_pickLater_some (l : List Entry) :
    ∀ a : Entry, l.foldl pickLater (some a) =
      if ∀ b ∈ l, entryStart b < entryStart a then some a else lastStartMax l := by
  induction l with
  | nil => intro a; simp
  | cons b t ih =>
    intro a
    by_cases hab : entryStart a ≤ entryStart b
    · have hnb : ¬ entryStart b < entryStart a := not_lt.mpr hab
      rw [List.foldl_cons, show pickLater (some a) b = some b by simp [pickLater, hab],
        if_neg fun hall => hnb (hall b (List.mem_cons_self b t))]
      rfl
    · have hb : entryStart b < entryStart a := not_le.mp hab
      rw [List.foldl_cons, show pickLater (some a) b = some a by simp [pickLater, hab], ih]
      by_cases hct : ∀ x ∈ t, entryStart x < entryStart a
      · rw [if_pos hct, if_pos (show ∀ x ∈ b :: t, entryStart x < entryStart a by
          intro x hx
          rcases List.mem_cons.mp hx with rfl | hxt
          · exact hb
          · exact hct x hxt)]
      · rw [if_neg hct,
          if_neg fun hall => hct fun x hx => hall x (List.mem_cons_of_mem b hx)]
        push_neg at hct
        obtain ⟨x, hx, hax⟩ := hct
        have : ¬ ∀ y ∈ t, entryStart y < entryStart b :=
          fun hall => absurd (lt_trans (hall x hx) hb) (not_lt.mpr hax)
        rw [show lastStartMax (b :: t) = t.foldl pickLater (some b) from rfl, ih,
          if_neg this]

/-- The stable ascending sort then `pop()` computes exactly the
latest-start-last-occurrence selection. -/
theorem getLast?_insertionSort (l : List Entry) :
    (l.insertionSort startLE).getLast? = lastStartMax l := by
  induction l with
  | nil => rfl
  | cons a t ih =>
    rw [show (a :: t).insertionSort startLE = (t.insertionSort startLE).orderedInsert startLE a
        from rfl,
      getLast?_orderedInsert, ih,
      show lastStartMax (a :: t) = t.foldl pickLater (some a) from rfl,
      foldl_pickLater_some]
    by_cases hc : ∀ b ∈ t, entryStart b < entryStart a
    · rw [if_pos fun b hb => hc b ((List.mem_insertionSort startLE).mp hb), if_pos hc]
    · rw [if_neg fun hall => hc fun b hb => hall b ((List.mem_insertionSort startLE).mpr hb),
        if_neg hc]

/-- The seeded `pickLater` fold returns a member of the seed-or-list that
bounds every start. -/
theorem foldl_pickLater_spec (l : List Entry) :
    ∀ (a e : Entry), l.foldl pickLater (some a) = some e →
      (e = a ∨ e ∈ l) ∧ entryStart a ≤ entryStart e ∧
        ∀ x ∈ l, entryStart x ≤ entryStart e := by
  induction l with
  | nil =>
    intro a e h
    obtain rfl : a = e := by simpa using h
    exact ⟨Or.inl rfl, le_refl _, by simp⟩
  | cons b t ih =>
    intro a e h
    by_cases hab : entryStart a ≤ entryStart b
    · rw [List.foldl_cons, show pickLater (some a) b = some b by simp [pickLater, hab]] at h
      obtain ⟨hmem, hbound, hall⟩ := ih b e h
      refine ⟨Or.inr ?_, le_trans hab hbound, ?_⟩
      · rcases hmem with rfl | hm
        · exact List.mem_cons_self _ _
        · exact List.mem_cons_of_mem _ hm
      · intro x hx
        rcases List.mem_cons.mp hx with rfl | hxt
        · exact hbound
        · exact hall x hxt
    · rw [List.foldl_cons, show pickLater (some a) b = some a by simp [pickLater, hab]] at h
      obtain ⟨hmem, hbound, hall⟩ := ih a e h
      refine ⟨?_, hbound, ?_⟩
      · rcases hmem with rfl | hm
        · exact Or.inl rfl
        · exact Or.inr (List.mem_cons_of_mem _ hm)
      · intro x hx
        rcases List.mem_cons.mp hx with rfl | hxt
        · exact le_trans (le_of_lt (not_le.mp hab)) hbound
        · exact hall x hxt

/-- `lastStartMax` picks a list member whose start bounds every start. -/
theorem lastStartMax_spec {l : List Entry} {e : Entry}
    (h : lastStartMax l = some e) :
    e ∈ l ∧ ∀ x ∈ l, entryStart x ≤ entryStart e := by
  cases l with
  | nil => simp [lastStartMax] at h
  | cons a t =>
    obtain ⟨hmem, hbound, hall⟩ := foldl_pickLater_spec t a e h
    refine ⟨?_, ?_⟩
    · rcases hmem with rfl | hm
      · exact List.mem_cons_self _ _
      · exact List.mem_cons_of_mem _ hm
    · intro x hx
      rcases List.mem_cons.mp hx with rfl | hxt
      · exact hbound
      · exact hall x hxt

/-- The seeded `pickLater` fold never returns `none`. -/
theorem foldl_pickLater_isSome (l : List Entry) :
    ∀ a : Entry, ∃ e, l.foldl pickLater (some a) = some e := by
  induction l with
  | nil => intro a; exact ⟨a, rfl⟩
  | cons b t ih =>
    intro a
    rw [List.foldl_cons]
    by_cases hab : entryStart a ≤ entryStart b
    · rw [show pickLater (some a) b = some b by simp [pickLater, hab]]
      exact ih b
    · rw [show pickLater (some a) b = some a by simp [pickLater, hab]]
      exact ih a

/-- Claim C6: whenever the 7-day listing contains at least one active entry,
the detector's selection (stable ascending sort by start, then `pop()`) is
the active entry with the latest start, equal starts resolved to the later
list position — some active entry is selected and its start bounds the start
of every active entry in the window. -/
theorem c6_detector_latest_start (entries : List Entry)
    (h : entries.filter isActiveEntry ≠ []) :
    selectActive entries = lastStartMax (entries.filter isActiveEntry) ∧
    ∃ e, selectActive entries = some e ∧ e ∈ entries.filter isActiveEntry ∧
      ∀ x ∈ entries.filter isActiveEntry, entryStart x ≤ entryStart e := by
  have heq : selectActive entries = lastStartMax (entries.filter isActiveEntry) :=
    getLast?_insertionSort _
  refine ⟨heq, ?_⟩
  cases hl : entries.filter isActiveEntry with
  | nil => exact absurd hl h
  | cons a t =>
    obtain ⟨e, he⟩ := foldl_pickLater_isSome t a
    have he2 : lastStartMax (a :: t) = some e := he
    have hsome : lastStartMax (entries.filter isActiveEntry) = some e := by
      rw [hl]; exact he2
    obtain ⟨hmem, hall⟩ := lastStartMax_spec he2
    exact ⟨e, heq.trans hsome, hmem, hall⟩

/-- Witness for C6: two active entries share start `5`; the later one in list
order is selected, not the first one found. -/
theorem c6_witness :
    [entryA, entryB].filter isActiveEntry ≠ [] ∧
    selectActive [entryA, entryB] =
      lastStartMax ([entryA, entryB].filter isActiveEntry) ∧
    selectActive [entryA, entryB] = some entryB :=
  ⟨by decide, (c6_detector_latest_start [entryA, entryB] (by decide)).1, by decide⟩

/-- Claim C7: whenever the selected entry's start fields are absent or falsy,
the extracted `ActiveTimerInfo` has `start = null`; any non-null start the
detector reports is the entry's own (non-zero) start value — the current time
is never substituted (the model's start derivation takes no clock input). -/
theorem c7_no_synthetic_start (u : String) (e : Entry) :
    ((e.start.orElse fun _ => e.start_time) = none ∨
        (e.start.orElse fun _ => e.start_time) = some 0 →
      (activeToInfo u e).start = none) ∧
    (∀ v : Int, (activeToInfo u e).start = some v → v = entryStart e ∧ v ≠ 0) ∧
    (∀ (isMe : Bool) (entries : List Entry)
        (currentResp : Option (List Entry ⊕ Entry)) (detailed : Option Entry)
        (info : ActiveTimerInfo),
      fetchActiveForUser u isMe entries currentResp detailed = some info →
      info.start = none ∨ ∃ w : Int, w ≠ 0 ∧ info.start = some w) := by
  refine ⟨?_, ?_, ?_⟩
  · rintro (h | h) <;> simp [activeToInfo, entryStart, h]
  · intro v hv
    by_cases hz : entryStart e = 0
    · simp [activeToInfo, hz] at hv
    · obtain rfl : entryStart e = v := by simpa [activeToInfo, hz] using hv
      exact ⟨rfl, hz⟩
  · intro isMe entries currentResp detailed info hinfo
    obtain ⟨a, -, rfl⟩ := Option.map_eq_some'.mp hinfo
    by_cases hz : entryStart a = 0
    · exact Or.inl (by simp [activeToInfo, hz])
    · exact Or.inr ⟨entryStart a, hz, by simp [activeToInfo, hz]⟩

/-- Witness for C7: an entry with no start fields yields `start = null`. -/
theorem c7_witness : (activeToInfo "u" {}).start = none :=
  (c7_no_synthetic_start "u" {}).1 (Or.inl rfl)

end ClickupDash
